import Mathlib

/-
Verification of the incremental Solidity build orchestrator
(src/scripts/Compiler.ts) against its natural-language specification.

The development shallowly embeds the orchestrator's pure logic:
  - association lists stand for JS objects (string- or number-keyed records);
  - the version regular expression of parseSolidityVersion is modelled by an
    explicit deterministic matcher (the pattern has no genuine backtracking
    ambiguity, as argued at each component);
  - the error-message normalization and deduplication of compileAll's
    error loop are modelled over lists of messages;
  - the per-unit decide-compile-merge-persist pipeline of compileAll is
    modelled as a state-passing function over an artifacts-directory state,
    with the external pieces (keccak hash, solc binary registry, solc
    backend, clock) supplied as an environment record.
-/

namespace Compiler

/-- Association-list lookup, modelling JS object property access
    (a missing property, JS undefined, becomes none). -/
def alookup {κ α : Type} [DecidableEq κ] : List (κ × α) → κ → Option α
  | [], _ => none
  | (k, a) :: rest, k2 => if k = k2 then some a else alookup rest k2

/-- Association-list update, modelling a JS object property write or the
    object-spread composition used at Compiler.ts lines 120-126: the entry
    for the key is replaced when present and appended otherwise; every other
    entry is untouched. -/
def aset {κ α : Type} [DecidableEq κ] : List (κ × α) → κ → α → List (κ × α)
  | [], k, a => [(k, a)]
  | (k1, b) :: rest, k, a => if k1 = k then (k, a) :: rest else (k1, b) :: aset rest k a

/-- Matching of a literal character sequence at the head of the input,
    as used for the literal parts of the source's regular expressions.
    Returns the rest of the input on success. -/
def stripLit : List Char → List Char → Option (List Char)
  | [], cs => some cs
  | _ :: _, [] => none
  | p :: ps, c :: cs => if c = p then stripLit ps cs else none

/-- JS regular-expression whitespace class (the characters relevant to
    ASCII source text). -/
def isJsSpace (c : Char) : Bool :=
  c == ' ' || c == '\t' || c == '\n' || c == '\r' || c == '\x0b' || c == '\x0c'

/-- Regex fragment: one or two digits followed by a literal dot
    (greedy, with the backtracking JS performs: two digits are taken when the
    character after them is the dot, else one digit when the character after
    it is the dot, else the fragment fails). Returns the digits and the rest
    of the input after the dot. -/
def digitsThenDot : List Char → Option (List Char × List Char)
  | d1 :: d2 :: rest =>
    if d1.isDigit then
      if d2.isDigit then
        match rest with
        | r1 :: r2 => if r1 = '.' then some ([d1, d2], r2) else none
        | [] => none
      else if d2 = '.' then some ([d1], rest)
      else none
    else none
  | _ => none

/-- Regex fragment: one or two digits at the end of the pattern (greedy:
    two digits are taken when available, else one). -/
def digitsEnd : List Char → Option (List Char)
  | [] => none
  | [d1] => if d1.isDigit then some [d1] else none
  | d1 :: d2 :: _ =>
    if d1.isDigit then
      if d2.isDigit then some [d1, d2] else some [d1]
    else none

/-- The optional caret of the version pattern: consumed when present
    (consuming it is complete, since the character after it must be a digit
    and a caret is not a digit). -/
def stripCaret : List Char → List Char
  | '^' :: r => r
  | r => r

/-- The part of the version pattern after the literal solidity: one
    whitespace, the optional caret, then the three dot-separated
    one-or-two-digit components. Returns the capture group (the version
    token) on success. -/
def matchVersionTail : List Char → Option String
  | [] => none
  | w :: rest2 =>
    if isJsSpace w then
      match digitsThenDot (stripCaret rest2) with
      | none => none
      | some (a, r1) =>
        match digitsThenDot r1 with
        | none => none
        | some (b, r2) =>
          match digitsEnd r2 with
          | none => none
          | some c => some (String.mk (a ++ '.' :: (b ++ '.' :: c)))
    else none

/-- Attempt of the version regular expression of Compiler.ts line 188 at one
    start position: literal solidity, then the tail of the pattern. -/
def matchVersionAt (cs : List Char) : Option String :=
  match stripLit "solidity".data cs with
  | none => none
  | some rest => matchVersionTail rest

/-- Left-to-right scan for the first match of the version pattern,
    as JS String.match performs for an unanchored regular expression. -/
def scanVersion : List Char → Option String
  | [] => none
  | c :: rest =>
    match matchVersionAt (c :: rest) with
    | some v => some v
    | none => scanVersion rest

/-- Model of parseSolidityVersion (Compiler.ts lines 186-193): the capture
    group of the first match of the version pattern, none when the match
    fails (the source then throws Could not find Solidity version). -/
def parseSolidityVersion (source : String) : Option String :=
  scanVersion source.data

/-- Longest prefix of the input ending in the literal .sol, as matched by
    the greedy leading wildcard of the path regular expression of
    Compiler.ts line 203; none when no prefix ends in .sol (the source then
    throws Could not find a path in error message). Diagnostics are modelled
    as single-line text, where the greedy wildcard reaches the last .sol
    occurrence of the whole message. -/
def longestSolPath : List Char → Option (List Char)
  | [] => none
  | c :: rest =>
    match longestSolPath rest with
    | some p => some (c :: p)
    | none =>
      match stripLit ".sol".data (c :: rest) with
      | some _ => some ('.' :: 's' :: 'o' :: 'l' :: [])
      | none => none

/-- The part of the input after its last slash, modelling path.basename on
    the slash-separated paths appearing here. -/
def afterLastSlash : List Char → List Char
  | [] => []
  | c :: rest => if c = '/' ∨ '/' ∈ rest then afterLastSlash rest else c :: rest

/-- Replacement of the first occurrence of a pattern, modelling JS
    String.replace with a string pattern; the input is returned unchanged
    when the pattern does not occur. -/
def replaceFirst (pat repl : List Char) : List Char → List Char
  | [] =>
    match stripLit pat [] with
    | some r => repl ++ r
    | none => []
  | c :: rest =>
    match stripLit pat (c :: rest) with
    | some r => repl ++ r
    | none => c :: replaceFirst pat repl rest

/-- Model of getNormalizedErrMsg (Compiler.ts lines 201-211): the directory
    part of the first path ending in .sol is stripped by replacing that path
    with its base name; none models the throw when no such path exists. -/
def getNormalizedErrMsg (msg : String) : Option String :=
  match longestSolPath msg.data with
  | none => none
  | some errPath => some (String.mk (replaceFirst errPath (afterLastSlash errPath) msg.data))

/-- Model of the error-deduplication loop of Compiler.ts lines 96-102 over
    one unit's diagnostics: the first component is the seen-set (the errors
    object), the second the messages emitted to the sink (consoleLog), in
    order. A normalization failure is the throw of line 208, which aborts
    the unit's loop: nothing further is emitted for that unit. -/
def emitErrors : List String → List String → List String × List String
  | seen, [] => (seen, [])
  | seen, m :: rest =>
    match getNormalizedErrMsg m with
    | none => (seen, [])
    | some n =>
      if n ∈ seen then emitErrors seen rest
      else
        let r := emitErrors (n :: seen) rest
        (r.1, n :: r.2)

/-- The error-deduplication state threaded across all units of one run
    (the errors object of Compiler.ts line 52 is shared by every unit). -/
def emitAllErrors : List String → List (List String) → List String × List String
  | seen, [] => (seen, [])
  | seen, msgs :: rest =>
    let r1 := emitErrors seen msgs
    let r2 := emitAllErrors r1.1 rest
    (r2.1, r1.2 ++ r2.2)

/-- One target's entry of an artifact record (the ContractData shape of the
    artifact JSON); abi is kept as its opaque serialized text. -/
structure ContractData where
  solc_version : String
  keccak256 : String
  optimizer_enabled : Nat
  abi : String
  unlinked_binary : String
  updated_at : Nat
deriving DecidableEq

/-- A parsed artifact record. contract_name is optional because the object
    built at Compiler.ts lines 120-126 spreads a possibly-undefined parsed
    value, which can leave the field absent. networks is keyed by network
    id. -/
structure ContractArtifact where
  contract_name : Option String
  networks : List (Nat × ContractData)
deriving DecidableEq

/-- One contract of the backend's output (interface text and bytecode). -/
structure ContractInfo where
  interface : String
  bytecode : String
deriving DecidableEq

/-- The backend's output: diagnostics and the per-identifier contracts. -/
structure CompiledOutput where
  errors : List String
  contracts : List (String × ContractInfo)

/-- The external collaborators of the orchestrator: the keccak hash of
    ethereumjs-util, the solc binary registry binPaths, the solc backend
    (keyed by unit base name, source text and optimizer flag), and the
    clock read by Date.now. -/
structure Env where
  hash : String → String
  binPaths : List (String × String)
  compileOutput : String → String → Nat → CompiledOutput
  now : Nat

/-- The orchestrator's settings relevant to the per-unit pipeline. -/
structure Cfg where
  networkId : Nat
  optimizerEnabled : Nat

/-- The artifacts directory, keyed by contract name: none means the file
    exists but does not parse as an artifact record, a missing key means no
    file. -/
abbrev ArtifactsState := List (String × Option ContractArtifact)

/-- Model of path.basename(name, .sol) as used at Compiler.ts line 56:
    the part after the last slash, with a trailing .sol removed unless the
    base name is exactly .sol (Node keeps the name in that case). -/
def stripSolExt (name : String) : String :=
  match (afterLastSlash name.data).reverse with
  | 'l' :: 'o' :: 's' :: '.' :: c :: rest => String.mk ((c :: rest).reverse)
  | _ => String.mk (afterLastSlash name.data)

/-- Model of the staleness decision of Compiler.ts lines 60-77: the outer
    Option is the file read (none: no file, the read throws), the inner one
    the JSON parse (none: the parse throws); both failures land in the catch
    and force recompilation. Otherwise the unit is stale when its target has
    no entry, or the stored digest differs from the current one, or the
    stored optimizer flag differs from the requested one. -/
def shouldCompileFile (file : Option (Option ContractArtifact)) (networkId : Nat)
    (sourceHash : String) (optimizerEnabled : Nat) : Bool :=
  match file with
  | some (some art) =>
    match alookup art.networks networkId with
    | none => true
    | some old => old.keccak256 != sourceHash || old.optimizer_enabled != optimizerEnabled
  | _ => true

/-- Model of the artifact built at Compiler.ts lines 120-126 when the prior
    artifact file was readable: the spread of the parsed prior artifact
    (an empty spread when the parse failed, leaving contract_name absent)
    with only the current target's networks entry replaced. -/
def mergeWithExisting (parsed : Option ContractArtifact) (networkId : Nat)
    (d : ContractData) : ContractArtifact :=
  match parsed with
  | some art => ⟨art.contract_name, aset art.networks networkId d⟩
  | none => ⟨none, [(networkId, d)]⟩

/-- Model of the fresh artifact built at Compiler.ts lines 128-133 when no
    prior artifact file was readable. -/
def freshArtifact (contractName : String) (networkId : Nat) (d : ContractData) :
    ContractArtifact :=
  ⟨some contractName, [(networkId, d)]⟩

/-- The artifact written for a unit, by the branch of Compiler.ts
    lines 118-134. -/
def newArtifactFor (file : Option (Option ContractArtifact)) (contractName : String)
    (networkId : Nat) (d : ContractData) : ContractArtifact :=
  match file with
  | some parsed => mergeWithExisting parsed networkId d
  | none => freshArtifact contractName networkId d

/-- Outcome of one unit's pipeline. versionNotFound is the throw of
    line 191, unsupportedVersion the failure of the require of line 86 when
    the registry lookup of line 84 found nothing, noPathInErrMsg the throw
    of line 208 escaping the error loop of lines 95-103 when some backend
    diagnostic contains no .sol path, outputMissing the throw of line 106
    when the backend produced no output for the contract identifier; each
    aborts only that unit. -/
inductive UnitOutcome
  | skipped
  | versionNotFound
  | unsupportedVersion (v : String)
  | noPathInErrMsg
  | outputMissing
  | saved (a : ContractArtifact)
deriving DecidableEq

/-- Whether the backend (solcInstance.compile, line 93) was invoked on the
    way to this outcome. -/
def backendInvoked : UnitOutcome → Bool
  | UnitOutcome.noPathInErrMsg => true
  | UnitOutcome.outputMissing => true
  | UnitOutcome.saved _ => true
  | _ => false

/-- Model of one unit's decide-compile-merge-persist pipeline, the body of
    the per-unit callback of Compiler.ts lines 54-140. The emission of
    diagnostics to the shared seen-set and sink is modelled separately by
    emitErrors; it touches the pipeline in one way, which this model keeps:
    the error loop of lines 95-103 calls getNormalizedErrMsg on every
    diagnostic, so when some diagnostic fails to normalize the throw of
    line 208 rejects the callback after the backend invocation of line 93
    and before the output access of line 106 and the write of line 137. -/
def processUnit (env : Env) (cfg : Cfg) (st : ArtifactsState) (baseName source : String) :
    UnitOutcome × ArtifactsState :=
  let contractName := stripSolExt baseName
  let sourceHash := "0x" ++ env.hash source
  let file := alookup st contractName
  if shouldCompileFile file cfg.networkId sourceHash cfg.optimizerEnabled then
    match parseSolidityVersion source with
    | none => (UnitOutcome.versionNotFound, st)
    | some v =>
      match alookup env.binPaths v with
      | none => (UnitOutcome.unsupportedVersion v, st)
      | some _ =>
        let compiled := env.compileOutput baseName source cfg.optimizerEnabled
        if compiled.errors.any (fun m => (getNormalizedErrMsg m).isNone) then
          (UnitOutcome.noPathInErrMsg, st)
        else
          match alookup compiled.contracts (baseName ++ ":" ++ contractName) with
          | none => (UnitOutcome.outputMissing, st)
          | some info =>
            let d : ContractData :=
              ⟨v, sourceHash, cfg.optimizerEnabled, info.interface,
                "0x" ++ info.bytecode, env.now⟩
            let na := newArtifactFor file contractName cfg.networkId d
            (UnitOutcome.saved na, aset st contractName (some na))
  else (UnitOutcome.skipped, st)

/-- All units' pipelines, run to completion in discovery order, with the
    artifacts-directory state threaded through (each unit owns the distinct
    key of its own artifact file, so the eventual effect of the run does not
    depend on the interleaving of the units). Returns the per-unit outcomes
    keyed by base name, and the final state. -/
def runUnits (env : Env) (cfg : Cfg) :
    ArtifactsState → List (String × String) → List (String × UnitOutcome) × ArtifactsState
  | st, [] => ([], st)
  | st, (b, s) :: rest =>
    let r := processUnit env cfg st b s
    let rr := runUnits env cfg r.2 rest
    ((b, r.1) :: rr.1, rr.2)

/-- The number of backend invocations among a run's outcomes. -/
def backendInvocations (outs : List (String × UnitOutcome)) : Nat :=
  (outs.filter (fun p => backendInvoked p.2)).length

/-- Observable events of one compileAll call: the resolution of the promise
    compileAll returns, and each artifact-file write. -/
inductive BuildEvent
  | ret
  | write (contractName : String)
deriving DecidableEq

/-- Trace of compileAll as written (Compiler.ts lines 54-140): the per-unit
    callbacks are dispatched by a lodash each, which calls each async
    callback synchronously and ignores the returned promise; every callback
    suspends at its first await (the artifact read of line 68) before
    performing any write, the loop and the enclosing function body then run
    to completion, so the promise of compileAll resolves before any unit's
    continuation resumes, and every artifact write happens after that
    resolution. -/
def compileAllTrace (env : Env) (cfg : Cfg) (st : ArtifactsState)
    (units : List (String × String)) : List BuildEvent :=
  BuildEvent.ret ::
    ((runUnits env cfg st units).1.filterMap fun p =>
      match p.2 with
      | UnitOutcome.saved _ => some (BuildEvent.write (stripSolExt p.1))
      | _ => none)

/-- Model of the import-resolution callback built by createFindImports
    (Compiler.ts lines 217-227): contents is none exactly when the base
    name is absent from the captured mapping (the source then returns an
    object whose contents field is undefined). -/
structure ImportContents where
  contents : Option String
deriving DecidableEq

def createFindImports (sources : List (String × String)) : String → ImportContents :=
  fun importPath => ⟨alookup sources (String.mk (afterLastSlash importPath.data))⟩

/-- Sample target entries used by concrete instantiations below. -/
def dSample : ContractData := ⟨"4.11.0", "0xab", 0, "[]", "0x6060", 123⟩

def dSample2 : ContractData := ⟨"9.9.9", "0xcd", 1, "[]", "0x6061", 456⟩

/-- A backend oracle that always produces output for the identifier the
    orchestrator asks for. -/
def demoOutput (b : String) (_s : String) (_o : Nat) : CompiledOutput :=
  ⟨[], [(b ++ ":" ++ stripSolExt b, ⟨"[]", "6060"⟩)]⟩

/-- A concrete environment: a constant hash, a registry holding exactly
    version 4.11.0, the always-succeeding backend, time zero. -/
def envDemo : Env := ⟨fun _ => "ab", [("4.11.0", "soljson-v0.4.11.js")], demoOutput, 0⟩

def cfgDemo : Cfg := ⟨50, 0⟩

/-- The condition under which a unit's pipeline performs no backend
    invocation and leaves the artifacts directory unchanged: the unit is
    not stale at its stored entry, or its version pragma does not parse, or
    the parsed version has no registry entry. -/
def goodEntry (env : Env) (cfg : Cfg) (file : Option (Option ContractArtifact))
    (s : String) : Prop :=
  shouldCompileFile file cfg.networkId ("0x" ++ env.hash s) cfg.optimizerEnabled = false
  ∨ parseSolidityVersion s = none
  ∨ ∃ v, parseSolidityVersion s = some v ∧ alookup env.binPaths v = none

/-- A well-formed component of a version token: one or two characters, all
    digits. -/
def okComp (l : List Char) : Prop := (l.length = 1 ∨ l.length = 2) ∧ ∀ ch ∈ l, ch.isDigit

/-- The shape every version string accepted by the source's pattern has:
    three dot-separated components of one or two digits each. -/
def versionShape (v : String) : Prop :=
  ∃ a b c : List Char,
    v.data = a ++ '.' :: (b ++ '.' :: c) ∧ okComp a ∧ okComp b ∧ okComp c

theorem alookup_aset_self {κ α : Type} [DecidableEq κ] (l : List (κ × α)) (k : κ) (a : α) :
    alookup (aset l k a) k = some a := by
  induction l with
  | nil => simp [aset, alookup]
  | cons p rest ih =>
    by_cases h : p.1 = k
    · simp [aset, alookup, h]
    · simp [aset, alookup, h, ih]

theorem alookup_aset_ne {κ α : Type} [DecidableEq κ] (l : List (κ × α)) (k k2 : κ) (a : α)
    (h : k ≠ k2) : alookup (aset l k a) k2 = alookup l k2 := by
  induction l with
  | nil => simp [aset, alookup, h]
  | cons p rest ih =>
    by_cases hp : p.1 = k
    · simp [aset, alookup, hp, h]
    · simp [aset, alookup, hp, ih]

theorem processUnit_not_stale (env : Env) (cfg : Cfg) (st : ArtifactsState) (b s : String)
    (h : shouldCompileFile (alookup st (stripSolExt b)) cfg.networkId
      ("0x" ++ env.hash s) cfg.optimizerEnabled = false) :
    processUnit env cfg st b s = (UnitOutcome.skipped, st) := by
  simp [processUnit, h]

theorem processUnit_stale_noVersion (env : Env) (cfg : Cfg) (st : ArtifactsState) (b s : String)
    (h : shouldCompileFile (alookup st (stripSolExt b)) cfg.networkId
      ("0x" ++ env.hash s) cfg.optimizerEnabled = true)
    (hv : parseSolidityVersion s = none) :
    processUnit env cfg st b s = (UnitOutcome.versionNotFound, st) := by
  simp [processUnit, h, hv]

theorem processUnit_stale_unsupported (env : Env) (cfg : Cfg) (st : ArtifactsState)
    (b s v : String)
    (h : shouldCompileFile (alookup st (stripSolExt b)) cfg.networkId
      ("0x" ++ env.hash s) cfg.optimizerEnabled = true)
    (hv : parseSolidityVersion s = some v)
    (hb : alookup env.binPaths v = none) :
    processUnit env cfg st b s = (UnitOutcome.unsupportedVersion v, st) := by
  simp [processUnit, h, hv, hb]

theorem processUnit_stale_errAbort (env : Env) (cfg : Cfg) (st : ArtifactsState)
    (b s v fp : String)
    (h : shouldCompileFile (alookup st (stripSolExt b)) cfg.networkId
      ("0x" ++ env.hash s) cfg.optimizerEnabled = true)
    (hv : parseSolidityVersion s = some v)
    (hb : alookup env.binPaths v = some fp)
    (herr : (env.compileOutput b s cfg.optimizerEnabled).errors.any
      (fun m => (getNormalizedErrMsg m).isNone) = true) :
    processUnit env cfg st b s = (UnitOutcome.noPathInErrMsg, st) := by
  simp [processUnit, h, hv, hb, herr]

theorem processUnit_stale_missing (env : Env) (cfg : Cfg) (st : ArtifactsState)
    (b s v fp : String)
    (h : shouldCompileFile (alookup st (stripSolExt b)) cfg.networkId
      ("0x" ++ env.hash s) cfg.optimizerEnabled = true)
    (hv : parseSolidityVersion s = some v)
    (hb : alookup env.binPaths v = some fp)
    (herr : (env.compileOutput b s cfg.optimizerEnabled).errors.any
      (fun m => (getNormalizedErrMsg m).isNone) = false)
    (hco : alookup (env.compileOutput b s cfg.optimizerEnabled).contracts
      (b ++ ":" ++ stripSolExt b) = none) :
    processUnit env cfg st b s = (UnitOutcome.outputMissing, st) := by
  simp [processUnit, h, hv, hb, herr, hco]

theorem processUnit_stale_saved (env : Env) (cfg : Cfg) (st : ArtifactsState)
    (b s v fp : String) (info : ContractInfo)
    (h : shouldCompileFile (alookup st (stripSolExt b)) cfg.networkId
      ("0x" ++ env.hash s) cfg.optimizerEnabled = true)
    (hv : parseSolidityVersion s = some v)
    (hb : alookup env.binPaths v = some fp)
    (herr : (env.compileOutput b s cfg.optimizerEnabled).errors.any
      (fun m => (getNormalizedErrMsg m).isNone) = false)
    (hco : alookup (env.compileOutput b s cfg.optimizerEnabled).contracts
      (b ++ ":" ++ stripSolExt b) = some info) :
    processUnit env cfg st b s =
      (UnitOutcome.saved
        (newArtifactFor (alookup st (stripSolExt b)) (stripSolExt b) cfg.networkId
          ⟨v, "0x" ++ env.hash s, cfg.optimizerEnabled, info.interface,
            "0x" ++ info.bytecode, env.now⟩),
        aset st (stripSolExt b)
          (some (newArtifactFor (alookup st (stripSolExt b)) (stripSolExt b) cfg.networkId
            ⟨v, "0x" ++ env.hash s, cfg.optimizerEnabled, info.interface,
              "0x" ++ info.bytecode, env.now⟩))) := by
  simp [processUnit, h, hv, hb, herr, hco]

theorem processUnit_state_cases (env : Env) (cfg : Cfg) (st : ArtifactsState) (b s : String) :
    (processUnit env cfg st b s).2 = st ∨
      ∃ a, (processUnit env cfg st b s).2 = aset st (stripSolExt b) (some a) := by
  by_cases h : shouldCompileFile (alookup st (stripSolExt b)) cfg.networkId
      ("0x" ++ env.hash s) cfg.optimizerEnabled = true
  · cases hv : parseSolidityVersion s with
    | none => rw [processUnit_stale_noVersion env cfg st b s h hv]; exact Or.inl rfl
    | some v =>
      cases hb : alookup env.binPaths v with
      | none => rw [processUnit_stale_unsupported env cfg st b s v h hv hb]; exact Or.inl rfl
      | some fp =>
        cases herr : (env.compileOutput b s cfg.optimizerEnabled).errors.any
            (fun m => (getNormalizedErrMsg m).isNone) with
        | true =>
          rw [processUnit_stale_errAbort env cfg st b s v fp h hv hb herr]
          exact Or.inl rfl
        | false =>
          cases hco : alookup (env.compileOutput b s cfg.optimizerEnabled).contracts
              (b ++ ":" ++ stripSolExt b) with
          | none => rw [processUnit_stale_missing env cfg st b s v fp h hv hb herr hco]
                    exact Or.inl rfl
          | some info =>
            rw [processUnit_stale_saved env cfg st b s v fp info h hv hb herr hco]
            exact Or.inr ⟨_, rfl⟩
  · have h0 : shouldCompileFile (alookup st (stripSolExt b)) cfg.networkId
        ("0x" ++ env.hash s) cfg.optimizerEnabled = false := by
      simpa using h
    rw [processUnit_not_stale env cfg st b s h0]
    exact Or.inl rfl

theorem processUnit_frame (env : Env) (cfg : Cfg) (st : ArtifactsState) (b s : String)
    (k : String) (h : stripSolExt b ≠ k) :
    alookup (processUnit env cfg st b s).2 k = alookup st k := by
  rcases processUnit_state_cases env cfg st b s with h1 | ⟨a, h1⟩
  · rw [h1]
  · rw [h1, alookup_aset_ne _ _ _ _ h]

theorem runUnits_frame (env : Env) (cfg : Cfg) (units : List (String × String)) :
    ∀ (st : ArtifactsState) (k : String), (∀ u ∈ units, stripSolExt u.1 ≠ k) →
      alookup (runUnits env cfg st units).2 k = alookup st k := by
  induction units with
  | nil => intro st k _; rfl
  | cons u rest ih =>
    intro st k h
    obtain ⟨b, s⟩ := u
    simp only [runUnits]
    rw [ih _ _ (fun w hw => h w (List.mem_cons_of_mem _ hw)),
      processUnit_frame env cfg st b s k (h (b, s) (List.mem_cons_self _ _))]

theorem processUnit_quiet (env : Env) (cfg : Cfg) (st : ArtifactsState) (b s : String)
    (h : goodEntry env cfg (alookup st (stripSolExt b)) s) :
    (processUnit env cfg st b s).2 = st
    ∧ backendInvoked (processUnit env cfg st b s).1 = false := by
  rcases h with h | h | ⟨v, hv, hb⟩
  · rw [processUnit_not_stale env cfg st b s h]; exact ⟨rfl, rfl⟩
  · by_cases hc : shouldCompileFile (alookup st (stripSolExt b)) cfg.networkId
        ("0x" ++ env.hash s) cfg.optimizerEnabled = true
    · rw [processUnit_stale_noVersion env cfg st b s hc h]; exact ⟨rfl, rfl⟩
    · rw [processUnit_not_stale env cfg st b s (by simpa using hc)]; exact ⟨rfl, rfl⟩
  · by_cases hc : shouldCompileFile (alookup st (stripSolExt b)) cfg.networkId
        ("0x" ++ env.hash s) cfg.optimizerEnabled = true
    · rw [processUnit_stale_unsupported env cfg st b s v hc hv hb]; exact ⟨rfl, rfl⟩
    · rw [processUnit_not_stale env cfg st b s (by simpa using hc)]; exact ⟨rfl, rfl⟩

theorem shouldCompileFile_newArtifact (file : Option (Option ContractArtifact))
    (cn : String) (id : Nat) (hsh : String) (opt : Nat) (v abi bin : String) (ts : Nat) :
    shouldCompileFile (some (some (newArtifactFor file cn id ⟨v, hsh, opt, abi, bin, ts⟩)))
      id hsh opt = false := by
  cases file with
  | none => simp [newArtifactFor, freshArtifact, shouldCompileFile, alookup]
  | some parsed =>
    cases parsed with
    | none => simp [newArtifactFor, mergeWithExisting, shouldCompileFile, alookup]
    | some art =>
      simp [newArtifactFor, mergeWithExisting, shouldCompileFile, alookup_aset_self]

theorem processUnit_establishes (env : Env) (cfg : Cfg) (st : ArtifactsState) (b s : String)
    (hout : (alookup (env.compileOutput b s cfg.optimizerEnabled).contracts
      (b ++ ":" ++ stripSolExt b)).isSome)
    (herr : (env.compileOutput b s cfg.optimizerEnabled).errors.any
      (fun m => (getNormalizedErrMsg m).isNone) = false) :
    goodEntry env cfg (alookup (processUnit env cfg st b s).2 (stripSolExt b)) s := by
  by_cases hc : shouldCompileFile (alookup st (stripSolExt b)) cfg.networkId
      ("0x" ++ env.hash s) cfg.optimizerEnabled = true
  · cases hv : parseSolidityVersion s with
    | none =>
      rw [processUnit_stale_noVersion env cfg st b s hc hv]
      exact Or.inr (Or.inl hv)
    | some v =>
      cases hb : alookup env.binPaths v with
      | none =>
        rw [processUnit_stale_unsupported env cfg st b s v hc hv hb]
        exact Or.inr (Or.inr ⟨v, hv, hb⟩)
      | some fp =>
        cases hco : alookup (env.compileOutput b s cfg.optimizerEnabled).contracts
            (b ++ ":" ++ stripSolExt b) with
        | none => rw [hco] at hout; simp at hout
        | some info =>
          rw [processUnit_stale_saved env cfg st b s v fp info hc hv hb herr hco]
          left
          rw [alookup_aset_self]
          exact shouldCompileFile_newArtifact _ _ _ _ _ _ _ _ _
  · have h0 : shouldCompileFile (alookup st (stripSolExt b)) cfg.networkId
        ("0x" ++ env.hash s) cfg.optimizerEnabled = false := by simpa using hc
    rw [processUnit_not_stale env cfg st b s h0]
    exact Or.inl h0

theorem runUnits_establishes (env : Env) (cfg : Cfg) (units : List (String × String)) :
    ∀ st : ArtifactsState, (units.map (fun u => stripSolExt u.1)).Nodup →
      (∀ u ∈ units, (alookup (env.compileOutput u.1 u.2 cfg.optimizerEnabled).contracts
        (u.1 ++ ":" ++ stripSolExt u.1)).isSome) →
      (∀ u ∈ units, (env.compileOutput u.1 u.2 cfg.optimizerEnabled).errors.any
        (fun m => (getNormalizedErrMsg m).isNone) = false) →
      ∀ u ∈ units,
        goodEntry env cfg (alookup (runUnits env cfg st units).2 (stripSolExt u.1)) u.2 := by
  induction units with
  | nil => intro st _ _ _ u hu; cases hu
  | cons u0 rest ih =>
    intro st hnd hback herr u hu
    obtain ⟨b, s⟩ := u0
    rw [List.map_cons, List.nodup_cons] at hnd
    simp only [runUnits]
    rcases List.mem_cons.mp hu with rfl | hu2
    · have h1 := processUnit_establishes env cfg st b s
        (hback (b, s) (List.mem_cons_self _ _)) (herr (b, s) (List.mem_cons_self _ _))
      have hnd1 : ∀ w ∈ rest, stripSolExt w.1 ≠ stripSolExt (b, s).1 := by
        intro w hw he
        exact hnd.1 (he ▸ List.mem_map_of_mem (fun u => stripSolExt u.1) hw)
      rw [runUnits_frame env cfg rest _ _ hnd1]
      exact h1
    · exact ih _ hnd.2 (fun w hw => hback w (List.mem_cons_of_mem _ hw))
        (fun w hw => herr w (List.mem_cons_of_mem _ hw)) u hu2

theorem runUnits_quiet (env : Env) (cfg : Cfg) (units : List (String × String)) :
    ∀ st : ArtifactsState,
      (∀ u ∈ units, goodEntry env cfg (alookup st (stripSolExt u.1)) u.2) →
      (runUnits env cfg st units).2 = st
      ∧ backendInvocations (runUnits env cfg st units).1 = 0 := by
  induction units with
  | nil => intro st _; exact ⟨rfl, rfl⟩
  | cons u0 rest ih =>
    intro st h
    obtain ⟨b, s⟩ := u0
    have hq := processUnit_quiet env cfg st b s (h (b, s) (List.mem_cons_self _ _))
    have hrest := ih st (fun u hu => h u (List.mem_cons_of_mem _ hu))
    simp only [runUnits, hq.1]
    refine ⟨hrest.1, ?_⟩
    simp [backendInvocations, List.filter, hq.2]
    have := hrest.2
    simpa [backendInvocations] using this

/-- Claim C1: merging a freshly compiled entry for target t2 into an
    existing artifact record leaves the stored entry of every other target
    t1 unchanged, for every prior record and every pair of distinct
    targets. -/
theorem claim_c1 (a : ContractArtifact) (t1 t2 : Nat) (d : ContractData) (h : t1 ≠ t2) :
    alookup (mergeWithExisting (some a) t2 d).networks t1 = alookup a.networks t1 := by
  simp only [mergeWithExisting]
  exact alookup_aset_ne _ _ _ _ (Ne.symm h)

theorem claim_c1_witness :
    alookup (mergeWithExisting (some ⟨some "Foo", [(1, dSample)]⟩) 2 dSample2).networks 1 =
      alookup (⟨some "Foo", [(1, dSample)]⟩ : ContractArtifact).networks 1 :=
  claim_c1 ⟨some "Foo", [(1, dSample)]⟩ 1 2 dSample2 (by decide)

/-- Claim C2: the staleness decision recompiles a unit exactly when no
    readable and parseable record with an entry for the target exists, or
    the stored digest differs from the current source digest, or the stored
    optimizer flag differs from the requested one (first conjunct); a
    matching digest and flag suppress recompilation whatever the stored
    compiler version, so version drift alone never triggers recompilation
    (second conjunct); the unit pipeline skips exactly when the decision is
    negative (third conjunct); and when the version resolves and is
    registered, the backend is invoked exactly when the decision is
    positive (fourth conjunct). -/
theorem claim_c2 :
    (∀ (file : Option (Option ContractArtifact)) (id : Nat) (hsh : String) (opt : Nat),
      shouldCompileFile file id hsh opt = true ↔
        file = none ∨ file = some none ∨
          ∃ a, file = some (some a) ∧
            (alookup a.networks id = none ∨
              ∃ d, alookup a.networks id = some d ∧
                (d.keccak256 ≠ hsh ∨ d.optimizer_enabled ≠ opt)))
    ∧ (∀ (a : ContractArtifact) (d : ContractData) (id : Nat) (hsh : String) (opt : Nat),
        alookup a.networks id = some d → d.keccak256 = hsh → d.optimizer_enabled = opt →
          shouldCompileFile (some (some a)) id hsh opt = false)
    ∧ (∀ (env : Env) (cfg : Cfg) (st : ArtifactsState) (b s : String),
        (processUnit env cfg st b s).1 = UnitOutcome.skipped ↔
          shouldCompileFile (alookup st (stripSolExt b)) cfg.networkId
            ("0x" ++ env.hash s) cfg.optimizerEnabled = false)
    ∧ (∀ (env : Env) (cfg : Cfg) (st : ArtifactsState) (b s v : String),
        parseSolidityVersion s = some v → (alookup env.binPaths v).isSome →
          backendInvoked (processUnit env cfg st b s).1 =
            shouldCompileFile (alookup st (stripSolExt b)) cfg.networkId
              ("0x" ++ env.hash s) cfg.optimizerEnabled) := by
  refine ⟨?_, ?_, ?_, ?_⟩
  · intro file id hsh opt
    cases file with
    | none => simp [shouldCompileFile]
    | some parsed =>
      cases parsed with
      | none => simp [shouldCompileFile]
      | some a =>
        cases hl : alookup a.networks id with
        | none => simp [shouldCompileFile, hl]
        | some d =>
          simp [shouldCompileFile, hl, bne_iff_ne]
  · intro a d id hsh opt hl h1 h2
    simp [shouldCompileFile, hl, h1, h2]
  · intro env cfg st b s
    by_cases hc : shouldCompileFile (alookup st (stripSolExt b)) cfg.networkId
        ("0x" ++ env.hash s) cfg.optimizerEnabled = true
    · simp only [hc]
      constructor
      · intro hsk
        exfalso
        cases hv : parseSolidityVersion s with
        | none => rw [processUnit_stale_noVersion env cfg st b s hc hv] at hsk; cases hsk
        | some v =>
          cases hb : alookup env.binPaths v with
          | none =>
            rw [processUnit_stale_unsupported env cfg st b s v hc hv hb] at hsk; cases hsk
          | some fp =>
            cases herr : (env.compileOutput b s cfg.optimizerEnabled).errors.any
                (fun m => (getNormalizedErrMsg m).isNone) with
            | true =>
              rw [processUnit_stale_errAbort env cfg st b s v fp hc hv hb herr] at hsk
              cases hsk
            | false =>
              cases hco : alookup (env.compileOutput b s cfg.optimizerEnabled).contracts
                  (b ++ ":" ++ stripSolExt b) with
              | none =>
                rw [processUnit_stale_missing env cfg st b s v fp hc hv hb herr hco] at hsk
                cases hsk
              | some info =>
                rw [processUnit_stale_saved env cfg st b s v fp info hc hv hb herr hco]
                  at hsk
                cases hsk
      · intro hfalse
        simp at hfalse
    · have h0 : shouldCompileFile (alookup st (stripSolExt b)) cfg.networkId
          ("0x" ++ env.hash s) cfg.optimizerEnabled = false := by simpa using hc
      rw [processUnit_not_stale env cfg st b s h0, h0]
      simp
  · intro env cfg st b s v hv hb
    obtain ⟨fp, hb⟩ := Option.isSome_iff_exists.mp hb
    by_cases hc : shouldCompileFile (alookup st (stripSolExt b)) cfg.networkId
        ("0x" ++ env.hash s) cfg.optimizerEnabled = true
    · rw [hc]
      cases herr : (env.compileOutput b s cfg.optimizerEnabled).errors.any
          (fun m => (getNormalizedErrMsg m).isNone) with
      | true => rw [processUnit_stale_errAbort env cfg st b s v fp hc hv hb herr]; rfl
      | false =>
        cases hco : alookup (env.compileOutput b s cfg.optimizerEnabled).contracts
            (b ++ ":" ++ stripSolExt b) with
        | none => rw [processUnit_stale_missing env cfg st b s v fp hc hv hb herr hco]; rfl
        | some info =>
          rw [processUnit_stale_saved env cfg st b s v fp info hc hv hb herr hco]; rfl
    · have h0 : shouldCompileFile (alookup st (stripSolExt b)) cfg.networkId
          ("0x" ++ env.hash s) cfg.optimizerEnabled = false := by simpa using hc
      rw [processUnit_not_stale env cfg st b s h0, h0]
      rfl

theorem claim_c2_witness :
    shouldCompileFile (some (some ⟨some "Foo", [(50, dSample)]⟩)) 50 "0xab" 0 = false
    ∧ backendInvoked (processUnit envDemo cfgDemo [] "A.sol" "pragma solidity ^4.11.0;").1 =
        shouldCompileFile (alookup ([] : ArtifactsState) (stripSolExt "A.sol"))
          cfgDemo.networkId ("0x" ++ envDemo.hash "pragma solidity ^4.11.0;")
          cfgDemo.optimizerEnabled :=
  ⟨claim_c2.2.1 ⟨some "Foo", [(50, dSample)]⟩ dSample 50 "0xab" 0 (by decide) rfl rfl,
    claim_c2.2.2.2 envDemo cfgDemo [] "A.sol" "pragma solidity ^4.11.0;" "4.11.0"
      (by decide) (by decide)⟩

/-- Claim C3 (refuted by this model of the source): compileAll dispatches
    the per-unit asynchronous callbacks through a lodash each without
    awaiting them, so its returned promise resolves before any unit's
    artifact write. On a source tree with one stale unit, the trace shows
    the completion event strictly before the write event, where the claim
    requires every write to precede completion. -/
theorem c3_fire_and_forget :
    compileAllTrace envDemo cfgDemo [] [("A.sol", "pragma solidity ^4.11.0;")] =
      [BuildEvent.ret, BuildEvent.write "A"] := by decide

/-- Claim C4: running the orchestrator a second time over the same units,
    same target and same optimizer flag (the environment may differ in its
    clock only) performs zero backend invocations, provided the discovered
    units have pairwise distinct contract names (guaranteed by discovery,
    whose keys are distinct base names with the .sol extension), the
    backend produced output for every unit it was asked to compile, and
    every backend diagnostic contains a .sol path. The last two hypotheses
    are necessary: a unit whose backend output lacks the contract
    identifier, or carries a path-less diagnostic, is compiled but aborted
    before the artifact write, so the next run compiles it again. -/
theorem claim_c4 (env : Env) (cfg : Cfg) (st0 : ArtifactsState)
    (units : List (String × String)) (n2 : Nat)
    (hnd : (units.map (fun u => stripSolExt u.1)).Nodup)
    (hback : ∀ u ∈ units, (alookup (env.compileOutput u.1 u.2 cfg.optimizerEnabled).contracts
      (u.1 ++ ":" ++ stripSolExt u.1)).isSome)
    (herr : ∀ u ∈ units, (env.compileOutput u.1 u.2 cfg.optimizerEnabled).errors.any
      (fun m => (getNormalizedErrMsg m).isNone) = false) :
    backendInvocations
      (runUnits { env with now := n2 } cfg (runUnits env cfg st0 units).2 units).1 = 0 := by
  have hg := runUnits_establishes env cfg units st0 hnd hback herr
  have hg2 : ∀ u ∈ units, goodEntry { env with now := n2 } cfg
      (alookup (runUnits env cfg st0 units).2 (stripSolExt u.1)) u.2 := hg
  exact (runUnits_quiet { env with now := n2 } cfg units _ hg2).2

theorem claim_c4_witness :
    backendInvocations
      (runUnits { envDemo with now := 1 } cfgDemo
        (runUnits envDemo cfgDemo [] [("A.sol", "pragma solidity ^4.11.0;")]).2
        [("A.sol", "pragma solidity ^4.11.0;")]).1 = 0 :=
  claim_c4 envDemo cfgDemo [] [("A.sol", "pragma solidity ^4.11.0;")] 1
    (by decide) (by decide) (by decide)

/-- Claim C6: for a stale unit whose version pragma resolves, the pipeline
    fails with the typed unsupported-version outcome exactly when the
    registry has no entry for that exact version string (first conjunct),
    and that failure leaves the artifacts directory untouched; any unit
    whose pipeline leaves the state unchanged does not disturb the
    processing of the remaining units of the run (second conjunct). -/
theorem claim_c6 :
    (∀ (env : Env) (cfg : Cfg) (st : ArtifactsState) (b s v : String),
      shouldCompileFile (alookup st (stripSolExt b)) cfg.networkId
          ("0x" ++ env.hash s) cfg.optimizerEnabled = true →
      parseSolidityVersion s = some v →
        (((processUnit env cfg st b s).1 = UnitOutcome.unsupportedVersion v ↔
            alookup env.binPaths v = none)
          ∧ (alookup env.binPaths v = none →
              processUnit env cfg st b s = (UnitOutcome.unsupportedVersion v, st))))
    ∧ (∀ (env : Env) (cfg : Cfg) (st : ArtifactsState) (b s : String)
        (rest : List (String × String)), (processUnit env cfg st b s).2 = st →
          runUnits env cfg st ((b, s) :: rest) =
            ((b, (processUnit env cfg st b s).1) :: (runUnits env cfg st rest).1,
              (runUnits env cfg st rest).2)) := by
  constructor
  · intro env cfg st b s v hc hv
    constructor
    · constructor
      · intro ho
        cases hb : alookup env.binPaths v with
        | none => rfl
        | some fp =>
          exfalso
          cases herr : (env.compileOutput b s cfg.optimizerEnabled).errors.any
              (fun m => (getNormalizedErrMsg m).isNone) with
          | true =>
            rw [processUnit_stale_errAbort env cfg st b s v fp hc hv hb herr] at ho
            cases ho
          | false =>
            cases hco : alookup (env.compileOutput b s cfg.optimizerEnabled).contracts
                (b ++ ":" ++ stripSolExt b) with
            | none =>
              rw [processUnit_stale_missing env cfg st b s v fp hc hv hb herr hco] at ho
              cases ho
            | some info =>
              rw [processUnit_stale_saved env cfg st b s v fp info hc hv hb herr hco] at ho
              cases ho
      · intro hb
        rw [processUnit_stale_unsupported env cfg st b s v hc hv hb]
    · intro hb
      exact processUnit_stale_unsupported env cfg st b s v hc hv hb
  · intro env cfg st b s rest h
    simp only [runUnits, h]

theorem claim_c6_witness :
    (((processUnit envDemo cfgDemo [] "B.sol" "pragma solidity ^9.9.9;").1 =
        UnitOutcome.unsupportedVersion "9.9.9" ↔
          alookup envDemo.binPaths "9.9.9" = none)
      ∧ (alookup envDemo.binPaths "9.9.9" = none →
          processUnit envDemo cfgDemo [] "B.sol" "pragma solidity ^9.9.9;" =
            (UnitOutcome.unsupportedVersion "9.9.9", [])))
    ∧ runUnits envDemo cfgDemo []
        [("B.sol", "pragma solidity ^9.9.9;"), ("A.sol", "pragma solidity ^4.11.0;")] =
        (("B.sol", (processUnit envDemo cfgDemo [] "B.sol" "pragma solidity ^9.9.9;").1) ::
          (runUnits envDemo cfgDemo [] [("A.sol", "pragma solidity ^4.11.0;")]).1,
          (runUnits envDemo cfgDemo [] [("A.sol", "pragma solidity ^4.11.0;")]).2) :=
  ⟨claim_c6.1 envDemo cfgDemo [] "B.sol" "pragma solidity ^9.9.9;" "9.9.9"
      (by decide) (by decide),
    claim_c6.2 envDemo cfgDemo [] "B.sol" "pragma solidity ^9.9.9;"
      [("A.sol", "pragma solidity ^4.11.0;")] (by decide)⟩

/-- Claim C9: when a prior artifact file exists and parses, the artifact
    written after a recompilation carries over every top-level field other
    than networks from the prior record; in this model of the artifact
    shape that is the contract_name field, which is copied, never rebuilt
    from the unit's name. -/
theorem claim_c9 (cn : String) (a : ContractArtifact) (t : Nat) (d : ContractData) :
    (newArtifactFor (some (some a)) cn t d).contract_name = a.contract_name := rfl

theorem slash_not_mem_afterLastSlash (l : List Char) : '/' ∉ afterLastSlash l := by
  induction l with
  | nil => simp [afterLastSlash]
  | cons c rest ih =>
    by_cases h : c = '/' ∨ '/' ∈ rest
    · simpa [afterLastSlash, h] using ih
    · simp only [afterLastSlash, if_neg h]
      push_neg at h
      simp only [List.mem_cons, not_or]
      exact ⟨fun e => h.1 e.symm, h.2⟩

theorem afterLastSlash_of_not_mem (l : List Char) (h : '/' ∉ l) : afterLastSlash l = l := by
  cases l with
  | nil => rfl
  | cons c rest =>
    have h1 : ¬(c = '/' ∨ '/' ∈ rest) := by
      push_neg
      exact ⟨fun e => h (by simp [e]), fun m => h (List.mem_cons_of_mem _ m)⟩
    simp [afterLastSlash, h1]

theorem afterLastSlash_idem (l : List Char) :
    afterLastSlash (afterLastSlash l) = afterLastSlash l :=
  afterLastSlash_of_not_mem _ (slash_not_mem_afterLastSlash l)

/-- Claim C8: the import-resolution callback built over a captured source
    mapping answers every import path through the base name obtained by
    stripping any directory prefix (first and second conjuncts: the answer
    for a path and for its bare base name coincide, and both are the
    mapping's entry at the base name), and a base name absent from the
    mapping yields a missing-contents result instead of a failure (third
    conjunct). The callback is a pure function of the captured mapping, so
    it cannot mutate it. -/
theorem claim_c8 (sources : List (String × String)) (p : String) :
    createFindImports sources p =
        createFindImports sources (String.mk (afterLastSlash p.data))
    ∧ (createFindImports sources p).contents =
        alookup sources (String.mk (afterLastSlash p.data))
    ∧ (alookup sources (String.mk (afterLastSlash p.data)) = none →
        (createFindImports sources p).contents = none) := by
  refine ⟨?_, rfl, fun h => h⟩
  simp only [createFindImports]
  rw [afterLastSlash_idem]

theorem claim_c8_witness :
    (createFindImports [("A.sol", "contract A")] "Missing.sol").contents = none :=
  (claim_c8 [("A.sol", "contract A")] "Missing.sol").2.2 (by decide)

theorem scanVersion_eq_none_iff (l : List Char) :
    scanVersion l = none ↔ ∀ t ∈ l.tails, matchVersionAt t = none := by
  induction l with
  | nil =>
    constructor
    · intro _ t ht
      have ht2 : t = ([] : List Char) := by simpa [List.tails] using ht
      subst ht2
      decide
    · intro _; rfl
  | cons c rest ih =>
    rw [List.tails_cons]
    cases hm : matchVersionAt (c :: rest) with
    | some v =>
      simp only [scanVersion, hm]
      constructor
      · intro h; cases h
      · intro h
        have := h (c :: rest) (List.mem_cons_self _ _)
        rw [hm] at this
        cases this
    | none =>
      simp only [scanVersion, hm]
      rw [ih]
      constructor
      · intro h t ht
        rcases List.mem_cons.mp ht with rfl | ht2
        · exact hm
        · exact h t ht2
      · intro h t ht
        exact h t (List.mem_cons_of_mem _ ht)

/-- Claim C5: a source containing the caret-prefixed declaration of
    version 4.11.0 resolves to exactly that version string, and version
    resolution fails (the source throws its version-not-found error) for
    precisely the source texts in which the version pattern matches at no
    position. -/
theorem claim_c5 :
    parseSolidityVersion "pragma solidity ^4.11.0;" = some "4.11.0"
    ∧ ∀ s : String,
        (parseSolidityVersion s = none ↔ ∀ t ∈ s.data.tails, matchVersionAt t = none) :=
  ⟨by decide, fun s => scanVersion_eq_none_iff s.data⟩

theorem claim_c5_witness :
    parseSolidityVersion "pragma solidity ^4.11.0;" = some "4.11.0"
    ∧ parseSolidityVersion "contract A" = none :=
  ⟨claim_c5.1, (claim_c5.2 "contract A").mpr (by decide)⟩

theorem digitsThenDot_ok (cs a r : List Char) (h : digitsThenDot cs = some (a, r)) :
    okComp a := by
  match cs with
  | [] => simp [digitsThenDot] at h
  | [d1] => simp [digitsThenDot] at h
  | d1 :: d2 :: rest =>
    simp only [digitsThenDot] at h
    by_cases h1 : d1.isDigit
    · rw [if_pos h1] at h
      by_cases h2 : d2.isDigit
      · rw [if_pos h2] at h
        cases rest with
        | nil => cases h
        | cons r1 r2 =>
          by_cases h3 : r1 = '.'
          · simp only [if_pos h3, Option.some.injEq, Prod.mk.injEq] at h
            rcases h with ⟨rfl, rfl⟩
            exact ⟨Or.inr rfl, by simp [h1, h2]⟩
          · simp only [if_neg h3] at h
            cases h
      · rw [if_neg h2] at h
        by_cases h3 : d2 = '.'
        · simp only [if_pos h3, Option.some.injEq, Prod.mk.injEq] at h
          rcases h with ⟨rfl, rfl⟩
          exact ⟨Or.inl rfl, by simp [h1]⟩
        · rw [if_neg h3] at h
          cases h
    · rw [if_neg h1] at h
      cases h

theorem digitsEnd_ok (cs c : List Char) (h : digitsEnd cs = some c) : okComp c := by
  match cs with
  | [] => simp [digitsEnd] at h
  | [d1] =>
    simp only [digitsEnd] at h
    by_cases h1 : d1.isDigit
    · rw [if_pos h1] at h
      simp only [Option.some.injEq] at h
      subst h
      exact ⟨Or.inl rfl, by simp [h1]⟩
    · rw [if_neg h1] at h
      cases h
  | d1 :: d2 :: rest =>
    simp only [digitsEnd] at h
    by_cases h1 : d1.isDigit
    · rw [if_pos h1] at h
      by_cases h2 : d2.isDigit
      · rw [if_pos h2] at h
        simp only [Option.some.injEq] at h
        subst h
        exact ⟨Or.inr rfl, by simp [h1, h2]⟩
      · rw [if_neg h2] at h
        simp only [Option.some.injEq] at h
        subst h
        exact ⟨Or.inl rfl, by simp [h1]⟩
    · rw [if_neg h1] at h
      cases h

theorem matchVersionTail_shape (rest : List Char) (v : String)
    (h : matchVersionTail rest = some v) : versionShape v := by
  cases rest with
  | nil => cases h
  | cons w rest2 =>
    simp only [matchVersionTail] at h
    by_cases hw : isJsSpace w = true
    · rw [if_pos hw] at h
      cases ha : digitsThenDot (stripCaret rest2) with
      | none => rw [ha] at h; exact Option.noConfusion h
      | some pa =>
        obtain ⟨a, r1⟩ := pa
        simp only [ha] at h
        cases hb : digitsThenDot r1 with
        | none => rw [hb] at h; exact Option.noConfusion h
        | some pb =>
          obtain ⟨b, r2⟩ := pb
          simp only [hb] at h
          cases hc : digitsEnd r2 with
          | none => rw [hc] at h; exact Option.noConfusion h
          | some c =>
            simp only [hc, Option.some.injEq] at h
            subst h
            exact ⟨a, b, c, rfl, digitsThenDot_ok _ _ _ ha,
              digitsThenDot_ok _ _ _ hb, digitsEnd_ok _ _ hc⟩
    · rw [if_neg hw] at h
      cases h

theorem matchVersionAt_shape (cs : List Char) (v : String)
    (h : matchVersionAt cs = some v) : versionShape v := by
  cases hs : stripLit "solidity".data cs with
  | none => simp only [matchVersionAt, hs] at h; exact Option.noConfusion h
  | some rest =>
    simp only [matchVersionAt, hs] at h
    exact matchVersionTail_shape rest v h

theorem scanVersion_shape (l : List Char) (v : String) (h : scanVersion l = some v) :
    versionShape v := by
  induction l with
  | nil => cases h
  | cons c rest ih =>
    simp only [scanVersion] at h
    cases hm : matchVersionAt (c :: rest) with
    | some w =>
      rw [hm] at h
      simp only [Option.some.injEq] at h
      subst h
      exact matchVersionAt_shape _ _ hm
    | none =>
      rw [hm] at h
      exact ih h

/-- Claim C10 (amended): every version string the extractor accepts has
    three dot-separated components of one or two digits each, and a major
    or minor component of three or more digits makes the whole match fail;
    but a patch component of three or more digits does not: the greedy
    match stops after two digits of the patch component and resolution
    succeeds with the truncated token. -/
theorem claim_c10_amended :
    (∀ (s : String) (v : String), parseSolidityVersion s = some v → versionShape v)
    ∧ parseSolidityVersion "pragma solidity ^4.110.0;" = none
    ∧ parseSolidityVersion "pragma solidity ^410.1.0;" = none
    ∧ parseSolidityVersion "pragma solidity ^1.2.345;" = some "1.2.34" :=
  ⟨fun s v h => scanVersion_shape s.data v h, by decide, by decide, by decide⟩

/-- Claim C10 as frozen is false on the code: this source's only version
    declaration carries the three-digit patch component 345, yet resolution
    does not fail with the version-not-found error - it succeeds, returning
    the truncated token 1.2.34. -/
theorem c10_counterexample :
    parseSolidityVersion "pragma solidity ^1.2.345;" = some "1.2.34" := by decide

theorem claim_c10_witness :
    parseSolidityVersion "pragma solidity ^4.11.0;" = some "4.11.0"
    ∧ versionShape "4.11.0" :=
  ⟨by decide, claim_c10_amended.1 "pragma solidity ^4.11.0;" "4.11.0" (by decide)⟩

theorem stripLit_append (p r : List Char) : stripLit p (p ++ r) = some r := by
  induction p with
  | nil => rfl
  | cons c rest ih => simp [stripLit, ih]

theorem longestSolPath_cons (c : Char) (l p : List Char)
    (h : longestSolPath l = some p) : longestSolPath (c :: l) = some (c :: p) := by
  simp [longestSolPath, h]

theorem longestSolPath_append (xs l p : List Char) (h : longestSolPath l = some p) :
    longestSolPath (xs ++ l) = some (xs ++ p) := by
  induction xs with
  | nil => simpa using h
  | cons c rest ih => simpa using longestSolPath_cons c _ _ ih

theorem afterLastSlash_append (p base : List Char) (h : '/' ∉ base) :
    afterLastSlash (p ++ '/' :: base) = base := by
  induction p with
  | nil =>
    have : ('/' : Char) = '/' ∨ '/' ∈ base := Or.inl rfl
    simp only [List.nil_append, afterLastSlash, if_pos this]
    exact afterLastSlash_of_not_mem base h
  | cons c rest ih =>
    show afterLastSlash (c :: (rest ++ '/' :: base)) = base
    simp only [afterLastSlash]
    rw [if_pos (Or.inr (by simp : '/' ∈ rest ++ '/' :: base))]
    exact ih

theorem replaceFirst_pre (pat repl r : List Char) :
    replaceFirst pat repl (pat ++ r) = repl ++ r := by
  have hs : stripLit pat (pat ++ r) = some r := stripLit_append pat r
  cases hpr : pat ++ r with
  | nil =>
    rw [hpr] at hs
    simp [replaceFirst, hs]
  | cons c rest =>
    rw [hpr] at hs
    simp [replaceFirst, hs]

theorem getNormalizedErrMsg_strip (p base suffix : List Char)
    (hb : '/' ∉ base) (hs : longestSolPath (base ++ suffix) = some base) :
    getNormalizedErrMsg (String.mk (p ++ '/' :: (base ++ suffix))) =
      some (String.mk (base ++ suffix)) := by
  have h1 : longestSolPath (p ++ '/' :: (base ++ suffix)) = some (p ++ '/' :: base) := by
    have := longestSolPath_append (p ++ ['/']) (base ++ suffix) base hs
    rw [List.append_assoc, List.append_assoc] at this
    exact this
  have h2 : afterLastSlash (p ++ '/' :: base) = base := afterLastSlash_append p base hb
  have h3 : replaceFirst (p ++ '/' :: base) base (p ++ '/' :: (base ++ suffix)) =
      base ++ suffix := by
    have := replaceFirst_pre (p ++ '/' :: base) base suffix
    rw [List.append_assoc] at this
    exact this
  simp only [getNormalizedErrMsg, h1, h2, h3]

theorem emitErrors_spec (msgs : List String) : ∀ seen : List String,
    (emitErrors seen msgs).2.Nodup
    ∧ (∀ n ∈ (emitErrors seen msgs).2, n ∉ seen)
    ∧ (∀ n, (n ∈ seen ∨ n ∈ (emitErrors seen msgs).2) → n ∈ (emitErrors seen msgs).1) := by
  induction msgs with
  | nil =>
    intro seen
    refine ⟨List.nodup_nil, by simp [emitErrors], ?_⟩
    intro n hn
    rcases hn with hn | hn
    · exact hn
    · cases hn
  | cons m rest ih =>
    intro seen
    cases hm : getNormalizedErrMsg m with
    | none =>
      simp only [emitErrors, hm]
      refine ⟨List.nodup_nil, by simp, ?_⟩
      intro n hn
      rcases hn with hn | hn
      · exact hn
      · cases hn
    | some n0 =>
      by_cases hseen : n0 ∈ seen
      · simp only [emitErrors, hm, if_pos hseen]
        exact ih seen
      · simp only [emitErrors, hm, if_neg hseen]
        have ihr := ih (n0 :: seen)
        refine ⟨?_, ?_, ?_⟩
        · refine List.nodup_cons.mpr ⟨?_, ihr.1⟩
          intro hmem
          exact ihr.2.1 n0 hmem (List.mem_cons_self _ _)
        · intro x hx
          rcases List.mem_cons.mp hx with rfl | hx2
          · exact hseen
          · intro hxs
            exact ihr.2.1 x hx2 (List.mem_cons_of_mem _ hxs)
        · intro x hx
          rcases hx with hx | hx
          · exact ihr.2.2 x (Or.inl (List.mem_cons_of_mem _ hx))
          · rcases List.mem_cons.mp hx with rfl | hx2
            · exact ihr.2.2 x (Or.inl (List.mem_cons_self _ _))
            · exact ihr.2.2 x (Or.inr hx2)

theorem emitAllErrors_spec (unitMsgs : List (List String)) : ∀ seen : List String,
    (emitAllErrors seen unitMsgs).2.Nodup
    ∧ (∀ n ∈ (emitAllErrors seen unitMsgs).2, n ∉ seen) := by
  induction unitMsgs with
  | nil => intro seen; exact ⟨List.nodup_nil, by simp [emitAllErrors]⟩
  | cons msgs rest ih =>
    intro seen
    simp only [emitAllErrors]
    have he := emitErrors_spec msgs seen
    have ihr := ih (emitErrors seen msgs).1
    constructor
    · refine List.Nodup.append he.1 ihr.1 ?_
      intro x hx1 hx2
      exact ihr.2 x hx2 (he.2.2 x (Or.inr hx1))
    · intro n hn hns
      rcases List.mem_append.mp hn with hn1 | hn2
      · exact he.2.1 n hn1 hns
      · exact ihr.2 n hn2 (he.2.2 n (Or.inl hns))

/-- Claim C7: two diagnostics that differ only in the directory prefix in
    front of the source-file name normalize to the same message, namely the
    diagnostic with the directory prefix stripped (first conjunct; the
    hypotheses say that the file name contains no slash and that the
    message's last .sol occurrence is the one ending the file name), and
    over a whole run any given normalized message reaches the reporting
    sink at most once, however many units produce it (second conjunct). -/
theorem claim_c7 :
    (∀ (p1 p2 base suffix : List Char), '/' ∉ base →
      longestSolPath (base ++ suffix) = some base →
        getNormalizedErrMsg (String.mk (p1 ++ '/' :: (base ++ suffix))) =
            getNormalizedErrMsg (String.mk (p2 ++ '/' :: (base ++ suffix)))
          ∧ getNormalizedErrMsg (String.mk (p1 ++ '/' :: (base ++ suffix))) =
              some (String.mk (base ++ suffix)))
    ∧ (∀ (unitMsgs : List (List String)) (n : String),
        ((emitAllErrors [] unitMsgs).2).count n ≤ 1) := by
  constructor
  · intro p1 p2 base suffix hb hs
    rw [getNormalizedErrMsg_strip p1 base suffix hb hs,
      getNormalizedErrMsg_strip p2 base suffix hb hs]
    exact ⟨rfl, rfl⟩
  · intro unitMsgs n
    exact List.nodup_iff_count_le_one.mp (emitAllErrors_spec unitMsgs []).1 n

theorem claim_c7_witness :
    (getNormalizedErrMsg (String.mk ("sub/dir".data ++ '/' ::
          ("A.sol".data ++ ":3: Warning: x".data))) =
        getNormalizedErrMsg (String.mk ("other".data ++ '/' ::
          ("A.sol".data ++ ":3: Warning: x".data)))
      ∧ getNormalizedErrMsg (String.mk ("sub/dir".data ++ '/' ::
          ("A.sol".data ++ ":3: Warning: x".data))) =
          some (String.mk ("A.sol".data ++ ":3: Warning: x".data)))
    ∧ (emitAllErrors []
        [["sub/dir/A.sol:3: Warning: x"], ["other/A.sol:3: Warning: x"]]).2.count
          "A.sol:3: Warning: x" ≤ 1 :=
  ⟨claim_c7.1 "sub/dir".data "other".data "A.sol".data ":3: Warning: x".data
      (by decide) (by decide),
    claim_c7.2 [["sub/dir/A.sol:3: Warning: x"], ["other/A.sol:3: Warning: x"]]
      "A.sol:3: Warning: x"⟩
end Compiler
